import Mathlib

/-!
Verification of the online-service scanning pipeline.

The first half embeds the Sync Service merge (the listener of
src/lib/microservices/sync-service/sync-service.ts) as pure Lean
functions: the durable job record and the incoming result message are
values of `Job`, the in-place mutations of the listener become explicit
record updates, and the unguarded lookup in setRules (which throws in
JavaScript when a rule name is missing) is modelled with Option, none
standing for the thrown exception, in which case nothing is persisted.

The second half models the Worker Service and the Status Aggregator
from the specification, since only their tests are part of the sources.
-/

namespace OnlineService

/-- Job statuses, from enums/status (JobStatus). -/
inductive JobStatus
  | pending
  | started
  | finished
  | error
  deriving DecidableEq, Repr

/-- Hint (rule) statuses, from enums/status (RuleStatus / HintStatus). -/
inductive RuleStatus
  | pending
  | pass
  | warning
  | error
  | off
  deriving DecidableEq, Repr

/-- Severity of an engine message, ordered error above warning above pass. -/
inductive Severity
  | pass
  | warning
  | error
  deriving DecidableEq, Repr

/-- An engine message: hintId names the hint it belongs to. -/
structure Message where
  hintId : String
  message : String
  severity : Option Severity := none
  deriving DecidableEq, Repr

/-- A hint result as stored on the job record: name, status, messages. -/
structure Rule where
  name : String
  status : RuleStatus
  messages : List Message
  deriving DecidableEq, Repr

/-- The fields of the durable job record (and of an incoming result
message) that the sync listener reads or writes: status, rules, the
started and finished timestamps, the error payload and the engine
version. Timestamps are modelled as naturals. -/
structure Job where
  status : JobStatus
  rules : List Rule
  started : Option Nat := none
  finished : Option Nat := none
  error : Option String := none
  sonarVersion : Option String := none
  deriving DecidableEq, Repr

/-- getRule of the sync service: first rule with the given name, none
when absent (Array.prototype.find returning undefined). -/
def getRule (name : String) : List Rule → Option Rule
  | [] => none
  | rule :: rest => if rule.name = name then some rule else getRule name rest

/-- One iteration of the setRules loop: find the first rule of the
durable list with the incoming rule's name and, when it is still
pending, overwrite its messages and status with the incoming ones.
Returns none when no rule has that name: the JavaScript code then
dereferences undefined and throws. -/
def setRule (dbRules : List Rule) (rule : Rule) : Option (List Rule) :=
  match dbRules with
  | [] => none
  | dbJobRule :: rest =>
    if dbJobRule.name = rule.name then
      if dbJobRule.status = RuleStatus.pending then
        some ({ dbJobRule with messages := rule.messages, status := rule.status } :: rest)
      else
        some (dbJobRule :: rest)
    else
      Option.map (fun rs => dbJobRule :: rs) (setRule rest rule)

/-- setRules of the sync service: fold the loop body over the incoming
rules, aborting (none) at the first missing name. -/
def setRules (dbRules : List Rule) : List Rule → Option (List Rule)
  | [] => some dbRules
  | rule :: rest =>
    match setRule dbRules rule with
    | none => none
    | some dbRules1 => setRules dbRules1 rest

/-- isJobFinished of the sync service: every rule is non-pending. -/
def isJobFinished (job : Job) : Bool :=
  job.rules.all (fun rule => decide (rule.status ≠ RuleStatus.pending))

/-- The merge performed by the sync listener on a durable record dbJob
and an incoming message job, between getJob and updateJob:
terminal error on the record absorbs everything; a started message sets
the started stamp and engine version unless the record is already
started, and advances the status only from pending; any other message
goes through setRules and then sets the terminal status (error
unconditionally, otherwise the incoming status once every rule is
non-pending). none models the exception thrown inside setRules, in
which case updateJob is never reached. -/
def mergeJob (dbJob : Job) (job : Job) : Option Job :=
  if dbJob.status = JobStatus.error then
    some dbJob
  else if job.status = JobStatus.started then
    let dbJob1 :=
      if dbJob.status ≠ JobStatus.started then
        { dbJob with started := job.started, sonarVersion := job.sonarVersion }
      else
        dbJob
    let dbJob2 :=
      if dbJob1.status = JobStatus.pending then
        { dbJob1 with status := job.status }
      else
        dbJob1
    some dbJob2
  else
    match setRules dbJob.rules job.rules with
    | none => none
    | some rules1 =>
      let dbJob1 := { dbJob with rules := rules1 }
      if job.status = JobStatus.error then
        some { dbJob1 with status := job.status, finished := job.finished, error := job.error }
      else if isJobFinished dbJob1 then
        some { dbJob1 with finished := job.finished, status := job.status }
      else
        some dbJob1

/-- A sequence of merges applied to a durable record, aborting at the
first thrown merge. -/
def mergeAll (dbJob : Job) : List Job → Option Job
  | [] => some dbJob
  | msg :: rest =>
    match mergeJob dbJob msg with
    | none => none
    | some dbJob1 => mergeAll dbJob1 rest

/-- Pointwise relation between the rule list before and after a merge
step: the name is unchanged, and a rule that was already non-pending is
unchanged altogether. -/
def RulePres (a b : Rule) : Prop :=
  a.name = b.name ∧ (a.status ≠ RuleStatus.pending → b = a)

/-- Three-way pointwise relation used to prove that re-applying a merge
is the identity: Between e db db1 says the three lists have the same
names position by position and every element of e equals the
corresponding element of db or the corresponding element of db1. -/
inductive Between : List Rule → List Rule → List Rule → Prop
  | nil : Between [] [] []
  | cons {x y z : Rule} {xs ys zs : List Rule} :
      x.name = y.name → y.name = z.name → (x = y ∨ x = z) →
      Between xs ys zs → Between (x :: xs) (y :: ys) (z :: zs)

/-- The invariant of claim C3: a finished record has no pending rule. -/
def JobInv (job : Job) : Prop :=
  job.status = JobStatus.finished → ∀ rule ∈ job.rules, rule.status ≠ RuleStatus.pending

/-- Concrete data used by the witnesses below. -/
def ruleA_pending : Rule := { name := "axe", status := RuleStatus.pending, messages := [] }

def ruleA_pass : Rule := { name := "axe", status := RuleStatus.pass, messages := [] }

def ruleB_err : Rule := { name := "baseline", status := RuleStatus.error, messages := [] }

def jobPendingEx : Job := { status := JobStatus.pending, rules := [ruleA_pending] }

def jobErrorEx : Job := { status := JobStatus.error, rules := [ruleA_pending] }

def msgFinishedEx : Job :=
  { status := JobStatus.finished, rules := [ruleA_pass], finished := some 7 }

def msgErrorEx : Job :=
  { status := JobStatus.error, rules := [ruleA_pass], finished := some 9, error := some "boom" }

def jobAfterErrorEx : Job :=
  { status := JobStatus.error, rules := [ruleA_pass], finished := some 9, error := some "boom" }

def dbJobC2 : Job := { status := JobStatus.started, rules := [ruleB_err, ruleA_pending] }

def msgC2 : Job :=
  { status := JobStatus.finished,
    rules := [{ name := "baseline", status := RuleStatus.pass, messages := [] }, ruleA_pass],
    finished := some 5 }

def jobC2 : Job :=
  { status := JobStatus.finished, rules := [ruleB_err, ruleA_pass], finished := some 5 }

def initC3 : Job := { status := JobStatus.pending, rules := [ruleA_pending] }

def msgC3 : Job := { status := JobStatus.finished, rules := [ruleA_pass], finished := some 3 }

def jobC3 : Job := { status := JobStatus.finished, rules := [ruleA_pass], finished := some 3 }

def dbJobC5 : Job :=
  { status := JobStatus.finished, rules := [ruleA_pass],
    started := some 1, finished := some 10, sonarVersion := some "1.0" }

def msgC5 : Job :=
  { status := JobStatus.started, rules := [], started := some 2, sonarVersion := some "2.0" }

def dbJobC5b : Job := { status := JobStatus.pending, rules := [] }

def msgC10 : Job :=
  { status := JobStatus.finished,
    rules := [{ name := "missing-hint", status := RuleStatus.pass, messages := [] }],
    finished := some 4 }

/-- Modelled from the spec: the worker-service implementation is not
part of src (only its tests are), so hint configuration entries are
modelled from section 4.1.1: either a literal setting string or a tuple
whose first element is the setting string. -/
inductive HintSetting
  | lit (value : String)
  | tup (head : String)
  deriving DecidableEq, Repr

/-- Modelled from the spec: a hint is configured off when its setting
is the literal off or a tuple whose first element is off. -/
def HintSetting.isOff : HintSetting → Bool
  | HintSetting.lit value => decide (value = "off")
  | HintSetting.tup head => decide (head = "off")

/-- Modelled from the spec: a configuration bundle maps hint names to
settings. -/
structure ConfigBundle where
  hints : List (String × HintSetting)
  deriving DecidableEq, Repr

/-- Modelled from the spec: the setting a bundle gives to a hint name,
none when the bundle does not mention the hint. -/
def settingOf (config : ConfigBundle) (name : String) : Option HintSetting :=
  Option.map Prod.snd (config.hints.find? (fun p => decide (p.1 = name)))

/-- Modelled from the spec: the sub-job the worker consumes: pending
hint placeholders, a single configuration bundle, an optional
maxRunTime. -/
structure SubJob where
  hints : List Rule
  config : List ConfigBundle
  maxRunTime : Option Nat := none
  deriving DecidableEq, Repr

/-- Modelled from the spec: the bundle a sub-job runs (config[0]). -/
def SubJob.bundle (job : SubJob) : ConfigBundle := job.config.headD { hints := [] }

/-- Modelled from the spec: the error payload of a ResultMessage is
either the raw engine payload or an object carrying a message, as in
the TIMEOUT case. -/
inductive JobError
  | raw (payload : String)
  | withMessage (message : String)
  deriving DecidableEq, Repr

/-- Modelled from the spec: a results-queue message emitted by the
worker. -/
structure ResultMessage where
  status : JobStatus
  hints : List Rule
  error : Option JobError := none
  started : Option Nat := none
  finished : Option Nat := none
  deriving DecidableEq, Repr

def severityRank : Severity → Nat
  | Severity.pass => 0
  | Severity.warning => 1
  | Severity.error => 2

def severityStatus : Severity → RuleStatus
  | Severity.pass => RuleStatus.pass
  | Severity.warning => RuleStatus.warning
  | Severity.error => RuleStatus.error

/-- Modelled from the spec: severity of an engine message; the tests
exercise messages without an explicit severity whose hint ends up
warning, so the default is warning. -/
def messageSeverity (m : Message) : Severity := m.severity.getD Severity.warning

def maxSeverity (msgs : List Message) : Severity :=
  msgs.foldl
    (fun acc m =>
      if severityRank acc < severityRank (messageSeverity m) then messageSeverity m else acc)
    Severity.pass

/-- Modelled from the spec: hint status resolution on a successful run
(section 4.1.1): an off hint is off; a hint with a non-empty message
bucket takes the bucket's highest severity and the bucket as messages;
otherwise a mentioned hint passes and an unmentioned hint is left
unchanged. -/
def resolveHint (config : ConfigBundle) (messages : List Message) (hint : Rule) : Rule :=
  if (settingOf config hint.name).any HintSetting.isOff then
    { hint with status := RuleStatus.off }
  else
    let bucket := messages.filter (fun m => decide (m.hintId = hint.name))
    if bucket.isEmpty then
      if (settingOf config hint.name).isSome then { hint with status := RuleStatus.pass }
      else hint
    else
      { hint with status := severityStatus (maxSeverity bucket), messages := bucket }

/-- Modelled from the spec: the single synthetic message carrying the
engine error text, used in the error case. -/
def syntheticMessage (name err : String) : Message :=
  { hintId := name, message := err }

/-- Modelled from the spec: hint marking on a failed run (section
4.1.2): off hints are off, other mentioned hints are error with one
synthetic message, unmentioned hints stay as they are. -/
def markHintOnError (config : ConfigBundle) (err : String) (hint : Rule) : Rule :=
  match settingOf config hint.name with
  | none => hint
  | some setting =>
    if HintSetting.isOff setting then { hint with status := RuleStatus.off }
    else
      { hint with status := RuleStatus.error, messages := [syntheticMessage hint.name err] }

/-- Modelled from the spec: on timeout every still-pending hint of the
sub-job is marked pass. -/
def markPendingAsPass (hint : Rule) : Rule :=
  if hint.status = RuleStatus.pending then { hint with status := RuleStatus.pass } else hint

/-- Modelled from the spec: what the worker observes for a sub-job: a
child message with ok true and engine messages, a child message with ok
false and an error payload, or expiry of the maxRunTime timer. -/
inductive ChildOutcome
  | ok (messages : List Message)
  | failed (error : String)
  | timeout
  deriving DecidableEq, Repr

/-- Modelled from the spec: the started emission, step 1 of processing
a sub-job. -/
def startedMessage (job : SubJob) (now : Nat) : ResultMessage :=
  { status := JobStatus.started, hints := job.hints, started := some now }

/-- Modelled from the spec: the terminal message before size handling:
ok gives finished with resolved hints; failure gives error status,
marked hints and the raw engine payload; timeout gives finished status,
the TIMEOUT error object and pending hints marked pass. -/
def buildTerminal (job : SubJob) (outcome : ChildOutcome) (now : Nat) : ResultMessage :=
  match outcome with
  | ChildOutcome.ok messages =>
    { status := JobStatus.finished,
      hints := job.hints.map (resolveHint job.bundle messages),
      finished := some now }
  | ChildOutcome.failed err =>
    { status := JobStatus.error,
      hints := job.hints.map (markHintOnError job.bundle err),
      error := some (JobError.raw err),
      finished := some now }
  | ChildOutcome.timeout =>
    { status := JobStatus.finished,
      hints := job.hints.map markPendingAsPass,
      error := some (JobError.withMessage "TIMEOUT"),
      finished := some now }

/-- Modelled from the spec: the replacement text for a hint whose
messages alone exceed the size limit. -/
def tooManyErrorsText : String :=
  "This hint has too many errors, please use webhint locally for more details"

/-- Modelled from the spec: serialized sizes, counted as the lengths of
the carried strings. -/
def messageSize (m : Message) : Nat := m.hintId.length + m.message.length

def hintMessagesSize (hint : Rule) : Nat := (hint.messages.map messageSize).sum

def hintSize (hint : Rule) : Nat := hint.name.length + hintMessagesSize hint

def resultSize (msg : ResultMessage) : Nat := (msg.hints.map hintSize).sum

/-- Modelled from the spec: a hint whose messages alone exceed maxSize
is collapsed to the single too-many-errors entry, keeping its status. -/
def collapseHint (maxSize : Nat) (hint : Rule) : Rule :=
  if maxSize < hintMessagesSize hint then
    { hint with messages := [{ hintId := hint.name, message := tooManyErrorsText }] }
  else hint

/-- Modelled from the spec: greedy first-fit: a hint goes into the
first group it fits; a hint that fits nowhere opens a new group. -/
def fitInto (maxSize : Nat) (groups : List (List Rule)) (hint : Rule) : List (List Rule) :=
  match groups with
  | [] => [[hint]]
  | g :: rest =>
    if (g.map hintSize).sum + hintSize hint ≤ maxSize then (g ++ [hint]) :: rest
    else g :: fitInto maxSize rest hint

def partitionHints (maxSize : Nat) (hints : List Rule) : List (List Rule) :=
  hints.foldl (fitInto maxSize) []

/-- Modelled from the spec: terminal emission, section 4.1.3: collapse
oversize hints, then send one message when the whole terminal fits and
otherwise one message per partition, all carrying the same status. -/
def sendResults (maxSize : Nat) (result : ResultMessage) : List ResultMessage :=
  let collapsed := { result with hints := result.hints.map (collapseHint maxSize) }
  if resultSize collapsed ≤ maxSize then [collapsed]
  else (partitionHints maxSize collapsed.hints).map (fun g => { collapsed with hints := g })

/-- Modelled from the spec: the emissions for one accepted sub-job: the
started message followed by the terminal emissions. -/
def processSubJob (maxSize : Nat) (job : SubJob) (outcome : ChildOutcome) (now : Nat) :
    List ResultMessage :=
  startedMessage job now :: sendResults maxSize (buildTerminal job outcome now)

/-- Modelled from the spec: the reactive oversize path: a send the bus
rejects with the oversize signal (HTTP 413) is retried once with every
oversize hint collapsed, adding exactly one extra emission; accepts
models the bus's acceptance. -/
def sendWithRetry (maxSize : Nat) (accepts : ResultMessage → Bool) (msg : ResultMessage) :
    List ResultMessage :=
  if accepts msg then [msg]
  else [msg, { msg with hints := msg.hints.map (collapseHint maxSize) }]

/-- Modelled from the spec: the status-aggregator implementation is not
part of src (only its tests are); the timestamps of a job it reads, in
milliseconds. -/
structure JobTimes where
  queued : Nat
  started : Nat
  finished : Nat
  deriving DecidableEq, Repr

/-- Modelled from the spec: the average block of a status record. -/
structure StatusAverage where
  start : ℚ
  finish : ℚ
  deriving DecidableEq, Repr

/-- Modelled from the spec: jobs whose terminal event lies in the
bucket, the quarter-hour interval from lo inclusive to hi exclusive. -/
def jobsInBucket (lo hi : Nat) (jobs : List JobTimes) : List JobTimes :=
  jobs.filter (fun j => decide (lo ≤ j.finished ∧ j.finished < hi))

def listMean (l : List ℚ) : ℚ := l.sum / l.length

/-- Modelled from the spec: the averages computed for a completed
bucket: the mean of started minus queued and the mean of finished minus
started over the jobs whose terminal event lies in the bucket. -/
def bucketAverage (lo hi : Nat) (jobs : List JobTimes) : StatusAverage :=
  let selected := jobsInBucket lo hi jobs
  { start := listMean (selected.map (fun j => (j.started : ℚ) - (j.queued : ℚ))),
    finish := listMean (selected.map (fun j => (j.finished : ℚ) - (j.started : ℚ))) }

/-- Concrete worker data used by the witnesses, taken from the
worker-service tests. -/
def bundleC6 : ConfigBundle :=
  { hints := [("axe", HintSetting.lit "warning"),
              ("content-type", HintSetting.lit "error"),
              ("disown-opener", HintSetting.tup "off")] }

def subJobC6 : SubJob :=
  { hints := [{ name := "axe", status := RuleStatus.pending, messages := [] },
              { name := "content-type", status := RuleStatus.pending, messages := [] },
              { name := "disown-opener", status := RuleStatus.pending, messages := [] },
              { name := "manifest-exists", status := RuleStatus.pending, messages := [] }],
    config := [bundleC6] }

def subJobC4 : SubJob :=
  { hints := [{ name := "content-type", status := RuleStatus.pending, messages := [] }],
    config := [{ hints := [("content-type", HintSetting.lit "error")] }] }

def subJobC7 : SubJob :=
  { hints := [{ name := "content-type", status := RuleStatus.pending, messages := [] }],
    config := [{ hints := [] }],
    maxRunTime := some 1 }

def hintC8 : Rule :=
  { name := "axe", status := RuleStatus.warning,
    messages := [{ hintId := "axe", message := "First of a tons of messages" },
                 { hintId := "axe", message := "Second of a tons of messages" }] }

def msgC8 : ResultMessage :=
  { status := JobStatus.finished, hints := [hintC8], finished := some 0 }

def jobsC9 : List JobTimes :=
  [{ queued := 0, started := 1000, finished := 61000 },
   { queued := 0, started := 3000, finished := 93000 },
   { queued := 0, started := 5000, finished := 125000 }]

theorem rulePres_refl (l : List Rule) : List.Forall₂ RulePres l l := by
  induction l with
  | nil => exact List.Forall₂.nil
  | cons x xs ih => exact List.Forall₂.cons ⟨rfl, fun _ => rfl⟩ ih

theorem rulePres_trans {a b c : List Rule} (h1 : List.Forall₂ RulePres a b)
    (h2 : List.Forall₂ RulePres b c) : List.Forall₂ RulePres a c := by
  induction h1 generalizing c with
  | nil => cases h2; exact List.Forall₂.nil
  | @cons x y xs ys hxy ht ih =>
    cases h2 with
    | @cons _ z _ zs hyz h2t =>
      refine List.Forall₂.cons ⟨hxy.1.trans hyz.1, fun hnp => ?_⟩ (ih h2t)
      have hyx : y = x := hxy.2 hnp
      have hz : z = y := hyz.2 (by rw [hyx]; exact hnp)
      rw [hz, hyx]

theorem setRule_pres {dbRules dbRules1 : List Rule} {rule : Rule}
    (h : setRule dbRules rule = some dbRules1) :
    List.Forall₂ RulePres dbRules dbRules1 := by
  induction dbRules generalizing dbRules1 with
  | nil => simp [setRule] at h
  | cons x xs ih =>
    simp only [setRule] at h
    by_cases hn : x.name = rule.name
    · rw [if_pos hn] at h
      by_cases hp : x.status = RuleStatus.pending
      · rw [if_pos hp] at h
        cases h
        exact List.Forall₂.cons ⟨rfl, fun hnp => absurd hp hnp⟩ (rulePres_refl xs)
      · rw [if_neg hp] at h
        cases h
        exact rulePres_refl (x :: xs)
    · rw [if_neg hn] at h
      cases hrec : setRule xs rule with
      | none => rw [hrec] at h; cases h
      | some ys =>
        rw [hrec] at h
        cases h
        exact List.Forall₂.cons ⟨rfl, fun _ => rfl⟩ (ih hrec)

theorem setRules_pres {ms : List Rule} : ∀ {dbRules dbRules1 : List Rule},
    setRules dbRules ms = some dbRules1 → List.Forall₂ RulePres dbRules dbRules1 := by
  induction ms with
  | nil =>
    intro db db1 h
    cases h
    exact rulePres_refl db
  | cons m rest ih =>
    intro db db1 h
    simp only [setRules] at h
    cases hs : setRule db m with
    | none => rw [hs] at h; cases h
    | some dbm =>
      rw [hs] at h
      exact rulePres_trans (setRule_pres hs) (ih h)

theorem getRule_pres {l l1 : List Rule} (hF : List.Forall₂ RulePres l l1) :
    ∀ {n : String} {r : Rule}, getRule n l = some r → r.status ≠ RuleStatus.pending →
      getRule n l1 = some r := by
  induction hF with
  | nil => intro n r h _; simp [getRule] at h
  | @cons a b as bs hab _ ih =>
    intro n r h hnp
    simp only [getRule] at h ⊢
    by_cases hn : a.name = n
    · rw [if_pos hn] at h
      cases h
      have hba : b = a := hab.2 hnp
      rw [if_pos (by rw [← hab.1]; exact hn), hba]
    · rw [if_neg hn] at h
      rw [if_neg (by rw [← hab.1]; exact hn)]
      exact ih h hnp

theorem getRule_isSome_pres {l l1 : List Rule} (hF : List.Forall₂ RulePres l l1)
    (n : String) : (getRule n l).isSome = (getRule n l1).isSome := by
  induction hF with
  | nil => rfl
  | @cons a b as bs hab _ ih =>
    simp only [getRule]
    by_cases hn : a.name = n
    · rw [if_pos hn, if_pos (by rw [← hab.1]; exact hn)]
      rfl
    · rw [if_neg hn, if_neg (by rw [← hab.1]; exact hn)]
      exact ih

theorem setRule_isSome (dbRules : List Rule) (rule : Rule) :
    (setRule dbRules rule).isSome = (getRule rule.name dbRules).isSome := by
  induction dbRules with
  | nil => rfl
  | cons x xs ih =>
    simp only [setRule, getRule]
    by_cases hn : x.name = rule.name
    · rw [if_pos hn, if_pos hn]
      by_cases hp : x.status = RuleStatus.pending
      · rw [if_pos hp]; rfl
      · rw [if_neg hp]; rfl
    · rw [if_neg hn, if_neg hn]
      cases hrec : setRule xs rule with
      | none => rw [hrec] at ih; simpa using ih.symm
      | some ys => rw [hrec] at ih; simpa using ih.symm

theorem between_right_eq {e db db2 : List Rule} (h : Between e db db2) (heq : db = db2) :
    e = db2 := by
  induction h with
  | nil => rfl
  | @cons x y z xs ys zs _ _ hor _ ih =>
    injection heq with h1 h2
    cases hor with
    | inl hx => rw [hx, h1, ih h2]
    | inr hx => rw [hx, ih h2]

theorem between_of_pres {db db1 : List Rule} (h : List.Forall₂ RulePres db db1) :
    Between db1 db db1 := by
  induction h with
  | nil => exact Between.nil
  | @cons a b as bs hab _ ih => exact Between.cons hab.1.symm hab.1 (Or.inr rfl) ih

theorem setRule_refold {e db db1 db2 : List Rule} {m : Rule}
    (hB : Between e db db2) (h1 : setRule db m = some db1)
    (hP : List.Forall₂ RulePres db1 db2) :
    ∃ e1, setRule e m = some e1 ∧ Between e1 db1 db2 := by
  induction hB generalizing db1 with
  | nil => simp [setRule] at h1
  | @cons x y z xs ys zs hxy hyz hor ht ih =>
    simp only [setRule] at h1
    by_cases hn : y.name = m.name
    · rw [if_pos hn] at h1
      have hxn : x.name = m.name := hxy.trans hn
      by_cases hp : y.status = RuleStatus.pending
      · rw [if_pos hp] at h1
        cases h1
        cases hP with
        | cons hwz hPt =>
          cases hor with
          | inl hxeq =>
            subst hxeq
            exact ⟨_, by simp [setRule, hxn, hp], Between.cons rfl hyz (Or.inl rfl) ht⟩
          | inr hxeq =>
            subst hxeq
            have hw : ({ x with messages := m.messages, status := m.status } : Rule)
                = { y with messages := m.messages, status := m.status } := by
              cases x
              cases y
              simp_all
            by_cases hzp : x.status = RuleStatus.pending
            · refine ⟨{ x with messages := m.messages, status := m.status } :: xs,
                by simp [setRule, hxn, hzp], ?_⟩
              rw [hw]
              exact Between.cons rfl hxy.symm (Or.inl rfl) ht
            · exact ⟨x :: xs, by simp [setRule, hxn, hzp],
                Between.cons hxy hxy.symm (Or.inr rfl) ht⟩
      · rw [if_neg hp] at h1
        cases h1
        cases hP with
        | cons hwz hPt =>
          have hzy : z = y := hwz.2 hp
          have hxeq : x = y := by
            cases hor with
            | inl h2 => exact h2
            | inr h2 => rw [h2, hzy]
          have hxp : ¬ x.status = RuleStatus.pending := by rw [hxeq]; exact hp
          exact ⟨x :: xs, by simp [setRule, hxn, hxp],
            Between.cons hxy hyz (Or.inl hxeq) ht⟩
    · rw [if_neg hn] at h1
      have hxn : ¬ x.name = m.name := by rw [hxy]; exact hn
      cases hrec : setRule ys m with
      | none => rw [hrec] at h1; cases h1
      | some ys1 =>
        rw [hrec] at h1
        cases h1
        cases hP with
        | cons hyz2 hPt =>
          obtain ⟨e1, he1, hB1⟩ := ih hrec hPt
          refine ⟨x :: e1, ?_, Between.cons hxy hyz2.1 hor hB1⟩
          simp only [setRule, if_neg hxn, he1]
          rfl

theorem setRules_refold {ms : List Rule} : ∀ {db e db2 : List Rule},
    setRules db ms = some db2 → Between e db db2 → setRules e ms = some db2 := by
  induction ms with
  | nil =>
    intro db e db2 h hB
    cases h
    rw [between_right_eq hB rfl]
    rfl
  | cons m rest ih =>
    intro db e db2 h hB
    simp only [setRules] at h
    cases hs : setRule db m with
    | none => rw [hs] at h; cases h
    | some db1 =>
      rw [hs] at h
      obtain ⟨e1, he1, hB1⟩ := setRule_refold hB hs (setRules_pres h)
      simp only [setRules, he1]
      exact ih h hB1

theorem setRules_idem {db db2 : List Rule} {ms : List Rule}
    (h : setRules db ms = some db2) : setRules db2 ms = some db2 :=
  setRules_refold h (between_of_pres (setRules_pres h))

theorem mergeJob_error_absorb {dbJob msg : Job} (h : dbJob.status = JobStatus.error) :
    mergeJob dbJob msg = some dbJob := by
  simp [mergeJob, h]

theorem isJobFinished_congr {j1 j2 : Job} (h : j1.rules = j2.rules) :
    isJobFinished j1 = isJobFinished j2 := by
  simp [isJobFinished, h]

theorem isJobFinished_iff (job : Job) :
    isJobFinished job = true ↔ ∀ rule ∈ job.rules, rule.status ≠ RuleStatus.pending := by
  simp [isJobFinished, List.all_eq_true]

theorem forall_nonpending_pres {l l1 : List Rule} (hF : List.Forall₂ RulePres l l1)
    (h : ∀ r ∈ l, r.status ≠ RuleStatus.pending) :
    ∀ r ∈ l1, r.status ≠ RuleStatus.pending := by
  induction hF with
  | nil => exact h
  | @cons a b as bs hab _ ih =>
    intro r hr
    rcases List.mem_cons.mp hr with rfl | hr
    · have hba := hab.2 (h a (List.mem_cons_self a as))
      rw [hba]
      exact h a (List.mem_cons_self a as)
    · exact ih (fun r2 hr2 => h r2 (List.mem_cons_of_mem a hr2)) r hr

theorem mergeJob_rules_pres {dbJob msg j : Job} (h : mergeJob dbJob msg = some j) :
    List.Forall₂ RulePres dbJob.rules j.rules := by
  by_cases h1 : dbJob.status = JobStatus.error
  · rw [mergeJob_error_absorb h1] at h
    cases h
    exact rulePres_refl _
  · by_cases h2 : msg.status = JobStatus.started
    · simp only [mergeJob, if_neg h1, if_pos h2] at h
      split at h <;> split at h <;> (cases h; exact rulePres_refl _)
    · simp only [mergeJob, if_neg h1, if_neg h2] at h
      cases hs : setRules dbJob.rules msg.rules with
      | none => rw [hs] at h; cases h
      | some rules1 =>
        rw [hs] at h
        have hF := setRules_pres hs
        simp only at h
        split at h
        · cases h; exact hF
        · split at h <;> (cases h; exact hF)

theorem mergeJob_started_eq {dbJob msg : Job} (h1 : ¬ dbJob.status = JobStatus.error)
    (h2 : msg.status = JobStatus.started) :
    mergeJob dbJob msg = some
      { dbJob with
        started := if dbJob.status = JobStatus.started then dbJob.started else msg.started,
        sonarVersion :=
          if dbJob.status = JobStatus.started then dbJob.sonarVersion else msg.sonarVersion,
        status := if dbJob.status = JobStatus.pending then JobStatus.started else dbJob.status } := by
  simp only [mergeJob, if_neg h1, if_pos h2]
  by_cases h3 : dbJob.status = JobStatus.started
  · rw [if_neg (not_not_intro h3), if_neg (show ¬ dbJob.status = JobStatus.pending by
      rw [h3]; exact fun hc => JobStatus.noConfusion hc)]
    rw [if_pos h3, if_pos h3, if_neg (show ¬ dbJob.status = JobStatus.pending by
      rw [h3]; exact fun hc => JobStatus.noConfusion hc)]
  · rw [if_pos h3]
    by_cases h4 : dbJob.status = JobStatus.pending
    · rw [if_pos h4, if_neg h3, if_neg h3, if_pos h4, h2]
    · rw [if_neg h4, if_neg h3, if_neg h3, if_neg h4]

theorem mergeJob_idem {dbJob msg j : Job} (h : mergeJob dbJob msg = some j) :
    mergeJob j msg = some j := by
  by_cases h1 : dbJob.status = JobStatus.error
  · rw [mergeJob_error_absorb h1] at h
    cases h
    exact mergeJob_error_absorb h1
  · by_cases h2 : msg.status = JobStatus.started
    · rw [mergeJob_started_eq h1 h2] at h
      cases h
      cases hdb : dbJob.status with
      | error => exact absurd hdb h1
      | pending =>
        rw [mergeJob_started_eq (by simp [hdb]) h2]
        simp [hdb]
      | started =>
        rw [mergeJob_started_eq (by simp [hdb]) h2]
        simp [hdb]
      | finished =>
        rw [mergeJob_started_eq (by simp [hdb]) h2]
        simp [hdb]
    · simp only [mergeJob, if_neg h1, if_neg h2] at h
      cases hs : setRules dbJob.rules msg.rules with
      | none => rw [hs] at h; cases h
      | some rules1 =>
        rw [hs] at h
        have hidem := setRules_idem hs
        simp only at h
        by_cases h3 : msg.status = JobStatus.error
        · rw [if_pos h3] at h
          cases h
          exact mergeJob_error_absorb h3
        · rw [if_neg h3] at h
          by_cases h4 : isJobFinished { dbJob with rules := rules1 } = true
          · rw [if_pos h4] at h
            cases h
            simp only [mergeJob, if_neg h3, if_neg h2, hidem]
            split <;> rfl
          · rw [if_neg h4] at h
            cases h
            simp only [mergeJob, if_neg h1, if_neg h2, hidem]
            rw [if_neg h3, if_neg h4]

theorem mergeJob_inv {dbJob msg j : Job} (hI : JobInv dbJob) (h : mergeJob dbJob msg = some j) :
    JobInv j := by
  by_cases h1 : dbJob.status = JobStatus.error
  · rw [mergeJob_error_absorb h1] at h
    cases h
    exact hI
  · by_cases h2 : msg.status = JobStatus.started
    · rw [mergeJob_started_eq h1 h2] at h
      cases h
      intro hfin
      simp only at hfin
      by_cases h4 : dbJob.status = JobStatus.pending
      · rw [if_pos h4] at hfin
        cases hfin
      · rw [if_neg h4] at hfin
        exact hI hfin
    · simp only [mergeJob, if_neg h1, if_neg h2] at h
      cases hs : setRules dbJob.rules msg.rules with
      | none => rw [hs] at h; cases h
      | some rules1 =>
        rw [hs] at h
        have hF := setRules_pres hs
        simp only at h
        by_cases h3 : msg.status = JobStatus.error
        · rw [if_pos h3] at h
          cases h
          intro hfin
          rw [h3] at hfin
          cases hfin
        · rw [if_neg h3] at h
          by_cases h4 : isJobFinished { dbJob with rules := rules1 } = true
          · rw [if_pos h4] at h
            cases h
            intro _
            exact (isJobFinished_iff _).mp h4
          · rw [if_neg h4] at h
            cases h
            intro hfin
            exact forall_nonpending_pres hF (hI hfin)

theorem mergeAll_inv {msgs : List Job} : ∀ {dbJob j : Job}, JobInv dbJob →
    mergeAll dbJob msgs = some j → JobInv j := by
  induction msgs with
  | nil =>
    intro dbJob j hI h
    cases h
    exact hI
  | cons msg rest ih =>
    intro dbJob j hI h
    simp only [mergeAll] at h
    cases hm : mergeJob dbJob msg with
    | none => rw [hm] at h; cases h
    | some dbJob1 =>
      rw [hm] at h
      exact ih (mergeJob_inv hI hm) h

theorem mergeJob_terminal_isSome {dbJob msg : Job} (h1 : ¬ dbJob.status = JobStatus.error)
    (h2 : ¬ msg.status = JobStatus.started) :
    (mergeJob dbJob msg).isSome = (setRules dbJob.rules msg.rules).isSome := by
  simp only [mergeJob, if_neg h1, if_neg h2]
  cases hs : setRules dbJob.rules msg.rules with
  | none => rfl
  | some rules1 =>
    simp only
    split
    · rfl
    · split <;> rfl

theorem setRules_isSome_iff {ms : List Rule} : ∀ {db : List Rule},
    (setRules db ms).isSome = true ↔ ∀ m ∈ ms, (getRule m.name db).isSome = true := by
  induction ms with
  | nil =>
    intro db
    simp [setRules]
  | cons m rest ih =>
    intro db
    simp only [setRules]
    have hsome := setRule_isSome db m
    cases hs : setRule db m with
    | none =>
      rw [hs] at hsome
      constructor
      · intro h
        cases h
      · intro hall
        have := hall m (List.mem_cons_self m rest)
        rw [← hsome] at this
        cases this
    | some db1 =>
      rw [hs] at hsome
      have hF := setRule_pres hs
      constructor
      · intro h m2 hm2
        rcases List.mem_cons.mp hm2 with rfl | hm2
        · exact hsome.symm
        · rw [getRule_isSome_pres hF m2.name]
          exact ih.mp h m2 hm2
      · intro hall
        apply ih.mpr
        intro m2 hm2
        rw [← getRule_isSome_pres hF m2.name]
        exact hall m2 (List.mem_cons_of_mem m hm2)

/-- Claim C1: terminal error is absorbing and dominating in the sync
merge: a durable record whose status is error is left unchanged by any
further message, and a successful merge of an error-status message into
a non-error record yields a record whose status is error. -/
theorem merge_error_absorbing_dominating (dbJob msg : Job) :
    (dbJob.status = JobStatus.error → mergeJob dbJob msg = some dbJob) ∧
    (dbJob.status ≠ JobStatus.error → msg.status = JobStatus.error →
      ∀ j : Job, mergeJob dbJob msg = some j → j.status = JobStatus.error) := by
  constructor
  · exact fun h => mergeJob_error_absorb h
  · intro h1 h2 j hj
    have h2s : ¬ msg.status = JobStatus.started := by
      rw [h2]
      exact fun hc => JobStatus.noConfusion hc
    simp only [mergeJob, if_neg h1, if_neg h2s] at hj
    cases hs : setRules dbJob.rules msg.rules with
    | none => rw [hs] at hj; cases hj
    | some rules1 =>
      rw [hs] at hj
      simp only [if_pos h2] at hj
      cases hj
      exact h2

theorem merge_error_absorbing_dominating_witness :
    mergeJob jobErrorEx msgFinishedEx = some jobErrorEx ∧
    jobAfterErrorEx.status = JobStatus.error :=
  ⟨(merge_error_absorbing_dominating jobErrorEx msgFinishedEx).1 rfl,
   (merge_error_absorbing_dominating jobPendingEx msgErrorEx).2 (by decide) rfl
     jobAfterErrorEx (by decide)⟩

/-- Claim C2: the sync merge is idempotent (merging the same message
twice equals merging it once), and once a durable hint is non-pending
no merge changes its status or messages (first non-pending observation
wins, stated through the find-by-name lookup the code uses). -/
theorem merge_idempotent_first_observation_wins (dbJob msg j : Job)
    (h : mergeJob dbJob msg = some j) :
    mergeJob j msg = some j ∧
    (∀ name rule, getRule name dbJob.rules = some rule →
      rule.status ≠ RuleStatus.pending → getRule name j.rules = some rule) :=
  ⟨mergeJob_idem h,
   fun _ _ hg hnp => getRule_pres (mergeJob_rules_pres h) hg hnp⟩

theorem merge_idempotent_first_observation_wins_witness :
    mergeJob jobC2 msgC2 = some jobC2 ∧ getRule "baseline" jobC2.rules = some ruleB_err :=
  ⟨(merge_idempotent_first_observation_wins dbJobC2 msgC2 jobC2 (by decide)).1,
   (merge_idempotent_first_observation_wins dbJobC2 msgC2 jobC2 (by decide)).2
     "baseline" ruleB_err (by decide) (by decide)⟩

/-- Claim C3: every record reachable from a pending record by sync
merges satisfies: finished implies every hint non-pending; and the
merge assigns an incoming finished status only when every hint of the
resulting record is non-pending. -/
theorem finished_records_fully_decided (init : Job) (msgs : List Job) (j : Job)
    (hinit : init.status = JobStatus.pending) (h : mergeAll init msgs = some j) :
    (j.status = JobStatus.finished → ∀ rule ∈ j.rules, rule.status ≠ RuleStatus.pending) ∧
    (∀ dbJob msg j2 : Job, mergeJob dbJob msg = some j2 →
      msg.status = JobStatus.finished → dbJob.status ≠ JobStatus.finished →
      j2.status = JobStatus.finished → isJobFinished j2 = true) := by
  constructor
  · have hInv : JobInv init := by
      intro hfin
      rw [hinit] at hfin
      cases hfin
    exact mergeAll_inv hInv h
  · intro dbJob msg j2 hm hmf hdbf hj2f
    by_cases h1 : dbJob.status = JobStatus.error
    · rw [mergeJob_error_absorb h1] at hm
      cases hm
      rw [h1] at hj2f
      cases hj2f
    · have h2 : ¬ msg.status = JobStatus.started := by
        rw [hmf]
        exact fun hc => JobStatus.noConfusion hc
      simp only [mergeJob, if_neg h1, if_neg h2] at hm
      cases hs : setRules dbJob.rules msg.rules with
      | none => rw [hs] at hm; cases hm
      | some rules1 =>
        rw [hs] at hm
        simp only at hm
        have h3 : ¬ msg.status = JobStatus.error := by
          rw [hmf]
          exact fun hc => JobStatus.noConfusion hc
        rw [if_neg h3] at hm
        by_cases h4 : isJobFinished { dbJob with rules := rules1 } = true
        · rw [if_pos h4] at hm
          cases hm
          exact h4
        · rw [if_neg h4] at hm
          cases hm
          exact absurd hj2f hdbf

theorem finished_records_fully_decided_witness :
    ruleA_pass.status ≠ RuleStatus.pending ∧ isJobFinished jobC3 = true :=
  ⟨(finished_records_fully_decided initC3 [msgC3] jobC3 rfl (by decide)).1 rfl ruleA_pass
     (by decide),
   (finished_records_fully_decided initC3 [msgC3] jobC3 rfl (by decide)).2 initC3 msgC3 jobC3
     (by decide) rfl (by decide) rfl⟩

/-- Claim C5 counterexample: a started message merged into a record
whose status is finished (not pending) overwrites the record's started
stamp and engine version, so they are not left as-is. -/
theorem started_merge_overwrites_non_pending_record :
    mergeJob dbJobC5 msgC5 =
      some { dbJobC5 with started := some 2, sonarVersion := some "2.0" } ∧
    dbJobC5.status ≠ JobStatus.pending ∧ dbJobC5.started ≠ some 2 := by
  decide

/-- Claim C5 (amended): a started message sets the record's started
stamp and engine version whenever the record's status is not started
(first writer wins only once the status has advanced to started, so a
pending or finished record receives the incoming values), and the
status advances pending to started only from pending. -/
theorem started_merge_first_writer_amended (dbJob msg : Job)
    (h1 : dbJob.status ≠ JobStatus.error) (h2 : msg.status = JobStatus.started) :
    ∃ j, mergeJob dbJob msg = some j ∧
      j.rules = dbJob.rules ∧ j.finished = dbJob.finished ∧ j.error = dbJob.error ∧
      (dbJob.status = JobStatus.started →
        j.started = dbJob.started ∧ j.sonarVersion = dbJob.sonarVersion ∧
          j.status = dbJob.status) ∧
      (dbJob.status ≠ JobStatus.started →
        j.started = msg.started ∧ j.sonarVersion = msg.sonarVersion) ∧
      j.status = (if dbJob.status = JobStatus.pending then JobStatus.started
        else dbJob.status) := by
  refine ⟨_, mergeJob_started_eq h1 h2, rfl, rfl, rfl, ?_, ?_, rfl⟩
  · intro h3
    refine ⟨by simp [h3], by simp [h3], by simp [h3]⟩
  · intro h3
    exact ⟨by simp [if_neg h3], by simp [if_neg h3]⟩

theorem started_merge_first_writer_amended_witness :
    ∃ j, mergeJob dbJobC5b msgC5 = some j ∧
      j.rules = dbJobC5b.rules ∧ j.finished = dbJobC5b.finished ∧ j.error = dbJobC5b.error ∧
      (dbJobC5b.status = JobStatus.started →
        j.started = dbJobC5b.started ∧ j.sonarVersion = dbJobC5b.sonarVersion ∧
          j.status = dbJobC5b.status) ∧
      (dbJobC5b.status ≠ JobStatus.started →
        j.started = msgC5.started ∧ j.sonarVersion = msgC5.sonarVersion) ∧
      j.status = (if dbJobC5b.status = JobStatus.pending then JobStatus.started
        else dbJobC5b.status) :=
  started_merge_first_writer_amended dbJobC5b msgC5 (by decide) rfl

/-- Claim C10: a terminal merge into a non-error record succeeds
exactly when every hint name carried by the message already exists in
the durable record's hint list; with a missing name the unguarded find
of getRule makes setRules throw (modelled by none) and nothing is
persisted. -/
theorem merge_requires_known_hint_names (dbJob msg : Job)
    (h1 : ¬ dbJob.status = JobStatus.error) (h2 : ¬ msg.status = JobStatus.started) :
    (mergeJob dbJob msg).isSome = true ↔
      ∀ rule ∈ msg.rules, (getRule rule.name dbJob.rules).isSome = true := by
  rw [mergeJob_terminal_isSome h1 h2]
  exact setRules_isSome_iff

theorem merge_requires_known_hint_names_witness :
    (mergeJob jobPendingEx msgC10).isSome = true ↔
      ∀ rule ∈ msgC10.rules, (getRule rule.name jobPendingEx.rules).isSome = true :=
  merge_requires_known_hint_names jobPendingEx msgC10 (by decide) (by decide)

theorem fitInto_ne_nil (maxSize : Nat) (groups : List (List Rule)) (hint : Rule) :
    fitInto maxSize groups hint ≠ [] := by
  cases groups with
  | nil => simp [fitInto]
  | cons g rest =>
    simp only [fitInto]
    split <;> simp

theorem foldl_fitInto_ne_nil (maxSize : Nat) (hints : List Rule) :
    ∀ groups : List (List Rule), groups ≠ [] →
      hints.foldl (fitInto maxSize) groups ≠ [] := by
  induction hints with
  | nil => intro groups hg; simpa using hg
  | cons h t ih =>
    intro groups _
    exact ih (fitInto maxSize groups h) (fitInto_ne_nil maxSize groups h)

theorem partitionHints_ne_nil (maxSize : Nat) (hints : List Rule) (h : hints ≠ []) :
    partitionHints maxSize hints ≠ [] := by
  cases hints with
  | nil => exact absurd rfl h
  | cons h0 t =>
    simp only [partitionHints, List.foldl_cons]
    exact foldl_fitInto_ne_nil maxSize t _ (fitInto_ne_nil maxSize [] h0)

theorem sendResults_ne_nil (maxSize : Nat) (result : ResultMessage) :
    sendResults maxSize result ≠ [] := by
  simp only [sendResults]
  split
  · simp
  · rename_i hgt
    rw [Ne, List.map_eq_nil_iff]
    apply partitionHints_ne_nil
    intro hnil
    apply hgt
    rw [show resultSize { result with hints := result.hints.map (collapseHint maxSize) }
        = ((result.hints.map (collapseHint maxSize)).map hintSize).sum from rfl, hnil]
    exact Nat.zero_le maxSize

theorem sendResults_status (maxSize : Nat) (result : ResultMessage) :
    ∀ t ∈ sendResults maxSize result, t.status = result.status := by
  intro t ht
  simp only [sendResults] at ht
  split at ht
  · rw [List.mem_singleton] at ht
    rw [ht]
  · rw [List.mem_map] at ht
    obtain ⟨g, _, hg⟩ := ht
    rw [← hg]

/-- Claim C4: processing an accepted sub-job emits the started message
first and then a non-empty list of terminal messages that all carry the
terminal status (finished or error); the emissions contain exactly one
started message, and when the collapsed terminal fits the size limit
there is exactly one terminal, so only oversize partitioning can
multiply terminals. -/
theorem worker_emits_started_then_terminals (maxSize now : Nat) (job : SubJob)
    (outcome : ChildOutcome) :
    processSubJob maxSize job outcome now =
      startedMessage job now :: sendResults maxSize (buildTerminal job outcome now) ∧
    (startedMessage job now).status = JobStatus.started ∧
    sendResults maxSize (buildTerminal job outcome now) ≠ [] ∧
    (∀ t ∈ sendResults maxSize (buildTerminal job outcome now),
      t.status = (buildTerminal job outcome now).status) ∧
    ((buildTerminal job outcome now).status = JobStatus.finished ∨
      (buildTerminal job outcome now).status = JobStatus.error) ∧
    (processSubJob maxSize job outcome now).countP
        (fun t => decide (t.status = JobStatus.started)) =
      ((sendResults maxSize (buildTerminal job outcome now)).countP
        (fun t => decide (t.status = JobStatus.started)) + 1) ∧
    ((buildTerminal job outcome now).status ≠ JobStatus.started →
      (sendResults maxSize (buildTerminal job outcome now)).countP
        (fun t => decide (t.status = JobStatus.started)) = 0) ∧
    (resultSize { buildTerminal job outcome now with
        hints := (buildTerminal job outcome now).hints.map (collapseHint maxSize) } ≤ maxSize →
      (sendResults maxSize (buildTerminal job outcome now)).length = 1) := by
  refine ⟨rfl, ?h2, sendResults_ne_nil maxSize _, sendResults_status maxSize _,
    ?h5, ?h6, ?h7, ?h8⟩
  case h2 => exact rfl
  case h5 =>
    cases outcome with
    | ok messages => exact Or.inl rfl
    | failed err => exact Or.inr rfl
    | timeout => exact Or.inl rfl
  case h6 => simp [processSubJob, startedMessage, List.countP_cons]
  case h7 =>
    intro hns
    rw [List.countP_eq_zero]
    intro t ht
    simp only [decide_eq_true_eq]
    intro hts
    exact hns (by rw [← sendResults_status maxSize _ t ht]; exact hts)
  case h8 =>
    intro hfit
    simp only [sendResults, if_pos hfit]
    rfl

theorem worker_emits_started_then_terminals_witness :
    sendResults 1000 (buildTerminal subJobC4 (ChildOutcome.ok []) 0) ≠ [] ∧
    ((buildTerminal subJobC4 (ChildOutcome.ok []) 0).status = JobStatus.finished ∨
      (buildTerminal subJobC4 (ChildOutcome.ok []) 0).status = JobStatus.error) ∧
    processSubJob 1000 subJobC4 (ChildOutcome.ok []) 0 =
      [startedMessage subJobC4 0, buildTerminal subJobC4 (ChildOutcome.ok []) 0] :=
  ⟨(worker_emits_started_then_terminals 1000 0 subJobC4 (ChildOutcome.ok [])).2.2.1,
   (worker_emits_started_then_terminals 1000 0 subJobC4 (ChildOutcome.ok [])).2.2.2.2.1,
   by decide⟩

/-- Claim C6: on a failed child run the terminal message has status
error and carries the engine payload, and pointwise on the sub-job's
hints: an unmentioned hint is unchanged (stays pending), an off hint is
marked off, and any other mentioned hint is marked error with the
single synthetic engine-error message. -/
theorem error_case_hint_marks (job : SubJob) (err : String) (now : Nat) :
    (buildTerminal job (ChildOutcome.failed err) now).status = JobStatus.error ∧
    (buildTerminal job (ChildOutcome.failed err) now).error = some (JobError.raw err) ∧
    List.Forall₂
      (fun hint out =>
        (settingOf job.bundle hint.name = none → out = hint) ∧
        (∀ s, settingOf job.bundle hint.name = some s → HintSetting.isOff s = true →
          out = { hint with status := RuleStatus.off }) ∧
        (∀ s, settingOf job.bundle hint.name = some s → HintSetting.isOff s = false →
          out =
            { hint with
              status := RuleStatus.error
              messages := [syntheticMessage hint.name err] }))
      job.hints (buildTerminal job (ChildOutcome.failed err) now).hints := by
  refine ⟨rfl, rfl, ?_⟩
  rw [show (buildTerminal job (ChildOutcome.failed err) now).hints
      = job.hints.map (markHintOnError job.bundle err) from rfl]
  rw [List.forall₂_map_right_iff, List.forall₂_same]
  intro hint _
  refine ⟨?_, ?_, ?_⟩
  · intro hnone
    simp [markHintOnError, hnone]
  · intro s hset hoff
    simp [markHintOnError, hset, hoff]
  · intro s hset hoff
    simp [markHintOnError, hset, hoff]

theorem error_case_hint_marks_witness :
    (buildTerminal subJobC6 (ChildOutcome.failed "Error running webhint") 0).status
      = JobStatus.error ∧
    (buildTerminal subJobC6 (ChildOutcome.failed "Error running webhint") 0).hints.map
        Rule.status =
      [RuleStatus.error, RuleStatus.error, RuleStatus.off, RuleStatus.pending] :=
  ⟨(error_case_hint_marks subJobC6 "Error running webhint" 0).1, by decide⟩

/-- Claim C7: on deadline expiry the terminal message has status
finished (not error) with the TIMEOUT error object, and every
still-pending hint of the sub-job appears marked pass. -/
theorem timeout_reports_finished_with_pass (job : SubJob) (now : Nat) :
    (buildTerminal job ChildOutcome.timeout now).status = JobStatus.finished ∧
    (buildTerminal job ChildOutcome.timeout now).status ≠ JobStatus.error ∧
    (buildTerminal job ChildOutcome.timeout now).error =
      some (JobError.withMessage "TIMEOUT") ∧
    List.Forall₂
      (fun hint out =>
        (hint.status = RuleStatus.pending → out = { hint with status := RuleStatus.pass }) ∧
        (hint.status ≠ RuleStatus.pending → out = hint))
      job.hints (buildTerminal job ChildOutcome.timeout now).hints := by
  refine ⟨rfl, fun hc => JobStatus.noConfusion hc, rfl, ?_⟩
  rw [show (buildTerminal job ChildOutcome.timeout now).hints
      = job.hints.map markPendingAsPass from rfl]
  rw [List.forall₂_map_right_iff, List.forall₂_same]
  intro hint _
  constructor
  · intro hp
    simp [markPendingAsPass, hp]
  · intro hp
    simp [markPendingAsPass, hp]

theorem timeout_reports_finished_with_pass_witness :
    (buildTerminal subJobC7 ChildOutcome.timeout 0).status = JobStatus.finished ∧
    (buildTerminal subJobC7 ChildOutcome.timeout 0).error =
      some (JobError.withMessage "TIMEOUT") ∧
    (buildTerminal subJobC7 ChildOutcome.timeout 0).hints.map Rule.status =
      [RuleStatus.pass] :=
  ⟨(timeout_reports_finished_with_pass subJobC7 0).1,
   (timeout_reports_finished_with_pass subJobC7 0).2.2.1, by decide⟩

/-- Claim C8: a hint whose messages alone exceed the size limit is
collapsed to the single too-many-errors entry with its status
preserved; the proactive path applies this to every hint of the
terminal before sending, and the reactive 413 path retries the
rejected emission once with the hints collapsed, adding exactly one
extra emission. -/
theorem oversize_hint_collapse (maxSize : Nat) (hint : Rule) (msg : ResultMessage)
    (accepts : ResultMessage → Bool) :
    (maxSize < hintMessagesSize hint →
      (collapseHint maxSize hint).messages =
        [{ hintId := hint.name, message := tooManyErrorsText }] ∧
      (collapseHint maxSize hint).status = hint.status ∧
      (collapseHint maxSize hint).name = hint.name) ∧
    (hintMessagesSize hint ≤ maxSize → collapseHint maxSize hint = hint) ∧
    (accepts msg = false →
      sendWithRetry maxSize accepts msg =
        [msg, { msg with hints := msg.hints.map (collapseHint maxSize) }] ∧
      (sendWithRetry maxSize accepts msg).length = 2) ∧
    (accepts msg = true → sendWithRetry maxSize accepts msg = [msg]) := by
  refine ⟨?_, ?_, ?_, ?_⟩
  · intro hover
    simp [collapseHint, hover]
  · intro hfits
    simp [collapseHint, Nat.not_lt.mpr hfits]
  · intro hrej
    constructor
    · simp [sendWithRetry, hrej]
    · simp [sendWithRetry, hrej]
  · intro hacc
    simp [sendWithRetry, hacc]

theorem oversize_hint_collapse_witness :
    (collapseHint 10 hintC8).messages =
      [{ hintId := "axe", message := tooManyErrorsText }] ∧
    (collapseHint 10 hintC8).status = RuleStatus.warning ∧
    (sendWithRetry 10 (fun _ => false) msgC8).length = 2 :=
  ⟨by have := (oversize_hint_collapse 10 hintC8 msgC8 (fun _ => false)).1 (by decide)
      exact this.1,
   by have := (oversize_hint_collapse 10 hintC8 msgC8 (fun _ => false)).1 (by decide)
      exact this.2.1,
   ((oversize_hint_collapse 10 hintC8 msgC8 (fun _ => false)).2.2.1 rfl).2⟩

theorem listMean_mul_length (l : List ℚ) (h : l ≠ []) :
    listMean l * l.length = l.sum := by
  have hl : (l.length : ℚ) ≠ 0 := by
    intro hc
    apply h
    apply List.length_eq_zero.mp
    exact_mod_cast hc
  simp only [listMean]
  exact div_mul_cancel₀ l.sum hl

/-- Claim C9: for a completed bucket the aggregator's averages are the
arithmetic means of started minus queued and of finished minus started
over the jobs whose terminal event lies in the bucket, stated as the
average times the number of selected jobs giving back the sum of the
differences. -/
theorem bucket_average_is_arithmetic_mean (lo hi : Nat) (jobs : List JobTimes)
    (h : jobsInBucket lo hi jobs ≠ []) :
    (bucketAverage lo hi jobs).start * (jobsInBucket lo hi jobs).length =
      ((jobsInBucket lo hi jobs).map (fun j => (j.started : ℚ) - (j.queued : ℚ))).sum ∧
    (bucketAverage lo hi jobs).finish * (jobsInBucket lo hi jobs).length =
      ((jobsInBucket lo hi jobs).map (fun j => (j.finished : ℚ) - (j.started : ℚ))).sum := by
  constructor
  · have := listMean_mul_length
      ((jobsInBucket lo hi jobs).map (fun j => (j.started : ℚ) - (j.queued : ℚ)))
      (by rw [Ne, List.map_eq_nil_iff]; exact h)
    rw [List.length_map] at this
    exact this
  · have := listMean_mul_length
      ((jobsInBucket lo hi jobs).map (fun j => (j.finished : ℚ) - (j.started : ℚ)))
      (by rw [Ne, List.map_eq_nil_iff]; exact h)
    rw [List.length_map] at this
    exact this

theorem bucket_average_is_arithmetic_mean_witness :
    ((bucketAverage 0 900000 jobsC9).start * (jobsInBucket 0 900000 jobsC9).length =
      ((jobsInBucket 0 900000 jobsC9).map (fun j => (j.started : ℚ) - (j.queued : ℚ))).sum ∧
    (bucketAverage 0 900000 jobsC9).finish * (jobsInBucket 0 900000 jobsC9).length =
      ((jobsInBucket 0 900000 jobsC9).map (fun j => (j.finished : ℚ) - (j.started : ℚ))).sum) ∧
    (bucketAverage 0 900000 jobsC9).start = 3000 ∧
    (bucketAverage 0 900000 jobsC9).finish = 90000 :=
  ⟨bucket_average_is_arithmetic_mean 0 900000 jobsC9 (by decide),
   by
    have hsel : jobsInBucket 0 900000 jobsC9 = jobsC9 := by decide
    simp only [bucketAverage, listMean, hsel]
    norm_num [jobsC9],
   by
    have hsel : jobsInBucket 0 900000 jobsC9 = jobsC9 := by decide
    simp only [bucketAverage, listMean, hsel]
    norm_num [jobsC9]⟩

end OnlineService
